import Mathlib

/-!
Shallow embedding of the Kyoto Tycoon client package `kt` (kt.go).

Go byte sequences (`[]byte` and `string` alike) are modelled as `List Nat`
whose members are below 256 where that matters. Functions with effects
(the round tripper, the RPC/REST dispatchers) are modelled by passing the
transport's per-attempt outcomes and the timer observations explicitly.
A Go runtime panic (out-of-range index) is modelled as a distinguished
`panic` result constructor.
-/

namespace KT

/-- A key/value record, `type KV struct { Key string; Value []byte }`
(kt.go). Both fields are byte sequences. -/
structure KV where
  key : List Nat
  value : List Nat
deriving DecidableEq

/-- The field-encoding marker `type Encoding int` with its constants
`IdentityEnc` and `Base64Enc` (kt.go). -/
inductive Encoding
  | IdentityEnc
  | Base64Enc
deriving DecidableEq

/-- The domain error `type Error struct { Message string; Code int }`
(kt.go). The message is kept as a byte sequence. -/
structure Error where
  message : List Nat
  code : Nat
deriving DecidableEq

/-- The bytes of a Go string literal. -/
def strBytes (s : String) : List Nat :=
  s.toList.map Char.toNat

/-- The sentinel `ErrTimeout = &Error{Message: "operation timeout"}` (kt.go). -/
def ErrTimeout : Error := ⟨strBytes "operation timeout", 0⟩

/-- The sentinel `ErrNotFound` (kt.go). -/
def ErrNotFound : Error :=
  ⟨strBytes "entry not found aka logical inconsistency", 0⟩

/-- The sentinel `ErrSuccess = &Error{Message: "success"}` (kt.go), the
legacy gokabinet value returned when a match operation finds nothing. -/
def ErrSuccess : Error := ⟨strBytes "success", 0⟩

/-- `hasBinary` (kt.go): true iff some byte of the string lies outside
printable ASCII `0x20`..`0x7e`. -/
def hasBinary (b : List Nat) : Bool :=
  b.any fun c => decide (c < 0x20) || decide (0x7e < c)

/-- `hasBinarySlice` (kt.go): the same predicate, for value byte slices. -/
def hasBinarySlice (b : List Nat) : Bool :=
  b.any fun c => decide (c < 0x20) || decide (0x7e < c)

/-- The standard base64 alphabet bytes used by `encoding/base64`'s
`StdEncoding`: `A`-`Z`, `a`-`z`, `0`-`9`, `+`, `/`. -/
def b64alphabet : List Nat :=
  [65, 66, 67, 68, 69, 70, 71, 72, 73, 74, 75, 76, 77, 78, 79, 80, 81, 82,
   83, 84, 85, 86, 87, 88, 89, 90,
   97, 98, 99, 100, 101, 102, 103, 104, 105, 106, 107, 108, 109, 110, 111,
   112, 113, 114, 115, 116, 117, 118, 119, 120, 121, 122,
   48, 49, 50, 51, 52, 53, 54, 55, 56, 57, 43, 47]

/-- Alphabet byte of a 6-bit index (`enc.encode[v]` in `encoding/base64`). -/
def b64Char (i : Nat) : Nat := b64alphabet.getD i 65

/-- 6-bit index of an alphabet byte (`enc.decodeMap` in `encoding/base64`);
`none` for a byte outside the alphabet. -/
def b64Index (c : Nat) : Option Nat := b64alphabet.indexOf? c

/-- Models `base64.StdEncoding.Encode`: each 3-byte group becomes 4 alphabet
bytes of its 24-bit value; a trailing 1- or 2-byte remainder is encoded and
padded with `=` (byte 61) to a 4-byte quantum. -/
def b64encode : List Nat → List Nat
  | b0 :: b1 :: b2 :: rest =>
    let val := b0 * 65536 + b1 * 256 + b2
    b64Char (val / 262144 % 64) :: b64Char (val / 4096 % 64) ::
      b64Char (val / 64 % 64) :: b64Char (val % 64) :: b64encode rest
  | [b0, b1] =>
    let val := b0 * 65536 + b1 * 256
    [b64Char (val / 262144 % 64), b64Char (val / 4096 % 64),
     b64Char (val / 64 % 64), 61]
  | [b0] =>
    let val := b0 * 65536
    [b64Char (val / 262144 % 64), b64Char (val / 4096 % 64), 61, 61]
  | [] => []

/-- Models `base64.StdEncoding.Decode` on the inputs it accepts: each 4-byte
quantum is inverted, and a final quantum padded with `=` (byte 61) yields 1
or 2 bytes and ends the input. On malformed input the bytes decoded from
the preceding complete quanta are returned, matching how `base64Decode`
(kt.go) discards the returned error and keeps `b[:n]`. -/
def b64decode : List Nat → List Nat
  | c0 :: c1 :: c2 :: c3 :: rest =>
    match b64Index c0, b64Index c1 with
    | some i0, some i1 =>
      if c2 = 61 then
        if c3 = 61 then [(i0 * 262144 + i1 * 4096) / 65536 % 256] else []
      else
        match b64Index c2 with
        | some i2 =>
          if c3 = 61 then
            [(i0 * 262144 + i1 * 4096 + i2 * 64) / 65536 % 256,
             (i0 * 262144 + i1 * 4096 + i2 * 64) / 256 % 256]
          else
            match b64Index c3 with
            | some i3 =>
              (i0 * 262144 + i1 * 4096 + i2 * 64 + i3) / 65536 % 256 ::
                (i0 * 262144 + i1 * 4096 + i2 * 64 + i3) / 256 % 256 ::
                (i0 * 262144 + i1 * 4096 + i2 * 64 + i3) % 256 ::
                b64decode rest
            | none => []
        | none => []
    | _, _ => []
  | _ => []

/-- `base64.StdEncoding.EncodedLen n = (n+2)/3*4` (padded encoding). -/
def EncodedLen (n : Nat) : Nat := (n + 2) / 3 * 4

/-- The first pass of `TSVEncode` (kt.go): the buffer size accumulated with
`base64.StdEncoding.EncodedLen` for every key and value plus one byte for
each tab and newline — note the base64 length is used regardless of which
encoding is later chosen. -/
def tsvBufsize (values : List KV) : Nat :=
  values.foldl
    (fun acc kv =>
      acc + EncodedLen kv.key.length + 1 + EncodedLen kv.value.length + 1) 0

/-- The `hasbinary` flag accumulated by `TSVEncode`'s first pass:
`hasBinary` on any key or `hasBinarySlice` on any value. -/
def tsvHasBinary (values : List KV) : Bool :=
  values.any fun kv => hasBinary kv.key || hasBinarySlice kv.value

/-- The bytes written by `TSVEncode`'s second pass: for each record,
the (possibly base64-encoded) key, a tab (9), the (possibly base64-encoded)
value, and a newline (10). -/
def tsvWritten (hasbinary : Bool) (values : List KV) : List Nat :=
  (values.map fun kv =>
    (if hasbinary then b64encode kv.key else kv.key) ++
      9 :: ((if hasbinary then b64encode kv.value else kv.value) ++ [10])).flatten

/-- `TSVEncode` (kt.go). The source allocates `buf := make([]byte, bufsize)`
(zero-filled) and writes `n` bytes into its front, returning the whole
buffer; the unwritten tail therefore stays zero. Since the written length
never exceeds `tsvBufsize`, the returned buffer is the written bytes
followed by `tsvBufsize - written.length` zero bytes. -/
def TSVEncode (values : List KV) : List Nat × Encoding :=
  let hasbinary := tsvHasBinary values
  let written := tsvWritten hasbinary values
  let buf := written ++ List.replicate (tsvBufsize values - written.length) 0
  (buf, if hasbinary then .Base64Enc else .IdentityEnc)

/-- Models `bytes.Buffer.ReadBytes(delim)`: returns the bytes up to and
including the first occurrence of `delim`, the remaining bytes, and whether
the delimiter was found (`found = false` corresponds to the `io.EOF` error,
in which case all remaining bytes are returned). -/
def readBytesTSV (delim : Nat) : List Nat → List Nat × List Nat × Bool
  | [] => ([], [], false)
  | b :: rest =>
    if b = delim then ([b], rest, true)
    else
      let r := readBytesTSV delim rest
      (b :: r.1, r.2.1, r.2.2)

theorem readBytesTSV_length (delim : Nat) (l : List Nat) :
    (readBytesTSV delim l).1.length + (readBytesTSV delim l).2.1.length =
      l.length := by
  induction l with
  | nil => simp [readBytesTSV]
  | cons b rest ih =>
    by_cases h : b = delim <;> simp [readBytesTSV, h] <;> omega

theorem readBytesTSV_found_pos (delim : Nat) (l : List Nat)
    (h : (readBytesTSV delim l).2.2 = true) :
    1 ≤ (readBytesTSV delim l).1.length := by
  induction l with
  | nil => simp [readBytesTSV] at h
  | cons b rest ih =>
    by_cases hb : b = delim
    · simp [readBytesTSV, hb]
    · simp [readBytesTSV, hb]

/-- `decodefunc` (kt.go): a per-field decoder. -/
abbrev decodefunc := List Nat → List Nat

/-- The record-parsing loop of `DecodeValues` (kt.go): repeatedly read a
key up to a tab (returning the accumulated records if no tab remains),
strip the tab and decode the key, read a value up to a newline, and if the
value read is non-empty, strip a trailing newline if present, decode it and
emit the record; stop when the newline read hit the end of the buffer. -/
def decodeLoop (decodef : decodefunc) (buf : List Nat) : List KV :=
  let kr := readBytesTSV 9 buf
  if hft : kr.2.2 then
    let key := decodef kr.1.dropLast
    let vr := readBytesTSV 10 kr.2.1
    if 0 < vr.1.length then
      let fieldlen := if vr.1.getLastD 0 = 10 then vr.1.length - 1
                      else vr.1.length
      let value := decodef (vr.1.take fieldlen)
      if vr.2.2 then ⟨key, value⟩ :: decodeLoop decodef vr.2.1
      else [⟨key, value⟩]
    else
      if vr.2.2 then decodeLoop decodef vr.2.1 else []
  else []
termination_by buf.length
decreasing_by
  all_goals
    have h1 := readBytesTSV_length 9 buf
    have h2 := readBytesTSV_found_pos 9 buf hft
    have h3 := readBytesTSV_length 10 (readBytesTSV 9 buf).2.1
    omega

/-- `identityDecode` (kt.go): pure TSV, fields kept as they are. -/
def identityDecode (b : List Nat) : List Nat := b

/-- `base64Decode` (kt.go): base64-decode a field in place, keeping the
decoded prefix `b[:n]` and discarding any error. -/
def base64Decode (b : List Nat) : List Nat := b64decode b

/-- `unhex` (kt.go, copied from net/url): hex digit value, 0 otherwise. -/
def unhex (c : Nat) : Nat :=
  if 48 ≤ c ∧ c ≤ 57 then c - 48
  else if 97 ≤ c ∧ c ≤ 102 then c - 97 + 10
  else if 65 ≤ c ∧ c ≤ 70 then c - 65 + 10
  else 0

/-- `urlDecode` (kt.go): percent-escape decoding. A `%` copies the value
`unhex(b[i+1])<<4 | unhex(b[i+2])` and skips two bytes. When a `%` occurs
with fewer than two bytes after it the source indexes past the end of the
slice (a Go panic); no claim depends on that case and it is modelled here
as reading byte 0. -/
def urlDecode : List Nat → List Nat
  | [] => []
  | b :: rest =>
    if b ≠ 37 then b :: urlDecode rest
    else
      match rest with
      | b1 :: b2 :: rest2 => (unhex b1 * 16 + unhex b2) :: urlDecode rest2
      | [b1] => [unhex b1 * 16 + unhex 0]
      | [] => [unhex 0 * 16 + unhex 0]

/-- Result of `DecodeValues` (kt.go): the record list, a returned error, or
a runtime panic (out-of-range index on the content-type string). -/
inductive DVResult
  | ok (records : List KV)
  | err (e : Error)
  | panic
deriving DecidableEq

/-- `DecodeValues` (kt.go). An empty buffer returns an empty list with no
error; otherwise the last byte of the content-type string selects the field
decoder (`B` = 66 base64, `U` = 85 percent-escape, `s` = 115 identity), any
other byte returns an `Error` naming the unknown content-type, and an empty
content-type string makes `contenttype[len(contenttype)-1]` panic. The
newline count the source takes first only pre-sizes the result slice and
has no observable effect. -/
def DecodeValues (buf : List Nat) (contenttype : List Nat) : DVResult :=
  if buf.length = 0 then .ok []
  else
    match contenttype.getLast? with
    | none => .panic
    | some c =>
      if c = 66 then .ok (decodeLoop base64Decode buf)
      else if c = 85 then .ok (decodeLoop urlDecode buf)
      else if c = 115 then .ok (decodeLoop identityDecode buf)
      else
        .err ⟨strBytes "responded with unknown Content-Type: " ++ contenttype,
              0⟩

/-- `findRec` (kt.go): first record with the given key, or a zero `KV`. -/
def findRec (kvs : List KV) (key : List Nat) : KV :=
  match kvs with
  | [] => ⟨[], []⟩
  | kv :: rest => if kv.key = key then kv else findRec rest key

/-- `makeError` (kt.go): the value of the record keyed `ERROR`, or a
generic message when no such record exists. -/
def makeError (m : List KV) : Error :=
  let kv := findRec m (strBytes "ERROR")
  if kv.key = [] then ⟨strBytes "generic error", 0⟩
  else ⟨kv.value, 0⟩

/-- The value side of the Go map `map[string][]byte`: `none` is the `nil`
slice used as the not-found sentinel, `some v` a real value. The map itself
is modelled as a function to `Option` of this type (`none` = key absent). -/
abbrev GoByteMap := List Nat → Option (Option (List Nat))

/-- Pointwise update of a Go map (`keys[k] = v`). -/
def mapUpdate (st : GoByteMap) (k : List Nat) (v : Option (List Nat)) :
    GoByteMap :=
  fun x => if x = k then some v else st x

/-- The seeding loop of `doGetBulkBytes` (kt.go): every requested key's slot
is set to the `nil` sentinel before the call. -/
def bulkSeed (keys : List (List Nat)) : GoByteMap :=
  fun k => if k ∈ keys then some none else none

/-- The response loop of `doGetBulkBytes` (kt.go): for each decoded record,
read `kv.Key[0]` (a panic, modelled as `none`, when the key is empty), skip
records not starting with `_` (95), and assign `keys[kv.Key[1:]] = kv.Value`
— note the assignment inserts the stripped key even when it was never
requested. -/
def bulkFill : List KV → GoByteMap → Option GoByteMap
  | [], st => some st
  | kv :: rest, st =>
    match kv.key with
    | [] => none
    | c :: ktail =>
      if c = 95 then bulkFill rest (mapUpdate st ktail (some kv.value))
      else bulkFill rest st

/-- Result of a bulk-get call: the final map, a returned error, or a panic. -/
inductive BulkResult
  | ok (result : List Nat → Option (List Nat))
  | err (e : Error)
  | panic

/-- The final map of `BulkResult.ok`, `none` otherwise. -/
def BulkResult.lookup : BulkResult → List Nat → Option (List Nat)
  | .ok f, k => f k
  | _, _ => none

/-- `doGetBulkBytes` (kt.go), as a function of the requested key set and
the status code and decoded records the RPC produced (the transport-error
return path is not modelled — the claims about this function fix a
successful RPC). Non-200 codes return `makeError`; otherwise the seeded map
is filled from the response and every key still at the `nil` sentinel is
deleted (`Option.join` maps the sentinel and absence both to absence). -/
def doGetBulkBytes (keys : List (List Nat)) (code : Nat) (m : List KV) :
    BulkResult :=
  if code ≠ 200 then .err (makeError m)
  else
    match bulkFill m (bulkSeed keys) with
    | none => .panic
    | some st => .ok fun k => (st k).join

/-- Result of a match call: the result list, an error, or a panic. -/
inductive MatchResult
  | ok (res : List (List Nat))
  | err (e : Error)
  | panic
deriving DecidableEq

/-- The result-collection loop of `MatchPrefixModel` (kt.go `MatchPrefix`):
for each decoded record read `kv.Key[0]` (a panic, modelled as `none`, when
the key is empty) and collect `kv.Key[1:]` for keys starting with `_` (95),
in response order. -/
def matchCollect : List KV → Option (List (List Nat))
  | [] => some []
  | kv :: rest =>
    match kv.key with
    | [] => none
    | c :: ktail =>
      match matchCollect rest with
      | none => none
      | some res => some (if c = 95 then ktail :: res else res)

/-- `MatchPrefix` (kt.go), as a function of the status code and decoded
records the RPC produced (the transport-error return path is not modelled).
Non-200 codes return `makeError`; an empty collected result returns the
legacy `ErrSuccess` sentinel with a nil list; otherwise the collected list. -/
def MatchPrefixModel (code : Nat) (m : List KV) : MatchResult :=
  if code ≠ 200 then .err (makeError m)
  else
    match matchCollect m with
    | none => .panic
    | some res => if res.length = 0 then .err ErrSuccess else .ok res

/-- An HTTP response as the models consume it: status code, the bytes
`ioutil.ReadAll` yields from the body, and the `Content-Type` header. -/
structure HTTPResponse where
  statusCode : Nat
  body : List Nat
  contentType : List Nat
deriving DecidableEq

/-- Outcome of one `transport.RoundTrip` attempt. -/
inductive Outcome
  | ok (resp : HTTPResponse)
  | err
deriving DecidableEq

/-- An error surfaced by a call: a package `Error` value (such as
`ErrTimeout`) or the underlying transport error, which is not an `Error`. -/
inductive CallError
  | ktErr (e : Error)
  | transportErr
deriving DecidableEq

/-- Result of `roundTrip` (kt.go): the response on success or the error on
failure, the number of transport attempts made, and the retry counter after
the call (a `uint64`, so kept modulo `2^64`). -/
structure RTResult where
  resp : Option HTTPResponse
  error : Option CallError
  attempts : Nat
  retryCount : Nat
deriving DecidableEq

/-- `roundTrip` (kt.go), as a function of the outcomes of the first and
(if made) second transport attempt, whether the deadline timer of the final
attempt had already fired when `t.Stop()` was called on the error path, and
the retry counter before the call. A failed first attempt closes idle
connections, retries exactly once and increments the counter with
`atomic.AddUint64`; if the final attempt still fails and the timer already
fired, the error is replaced by `ErrTimeout`. -/
def roundTrip (o1 o2 : Outcome) (timerFired : Bool) (rc : Nat) : RTResult :=
  match o1 with
  | .ok r => ⟨some r, none, 1, rc⟩
  | .err =>
    match o2 with
    | .ok r => ⟨some r, none, 2, (rc + 1) % 2 ^ 64⟩
    | .err =>
      ⟨none,
       some (if timerFired then .ktErr ErrTimeout else .transportErr),
       2, (rc + 1) % 2 ^ 64⟩

/-- Result of `doRPC` (kt.go): status code with decoded records, an error,
or a panic propagated from `DecodeValues`. -/
inductive RPCResult
  | ok (code : Nat) (records : List KV)
  | err (e : CallError)
  | panic
deriving DecidableEq

/-- `doRPC` (kt.go), as a function of the record list to send and of the
transport observations: attempt outcomes, whether the final attempt's timer
had fired on the error path (`rtTimerFired`), whether it had fired by the
time the body was read (`bodyTimerFired`, the `!t.Stop()` check), whether
reading the body failed (`readErr`), and the retry counter. The request
body is `TSVEncode values` with the matching content-type header; the
response body is then decoded with `DecodeValues`. -/
def doRPC (values : List KV) (o1 o2 : Outcome)
    (rtTimerFired bodyTimerFired readErr : Bool) (rc : Nat) :
    RPCResult × Nat :=
  let _requestBody := TSVEncode values
  let r := roundTrip o1 o2 rtTimerFired rc
  match r.resp with
  | none => (.err (r.error.getD .transportErr), r.retryCount)
  | some resp =>
    if bodyTimerFired then (.err (.ktErr ErrTimeout), r.retryCount)
    else if readErr then (.err .transportErr, r.retryCount)
    else
      match DecodeValues resp.body resp.contentType with
      | .ok m => (.ok resp.statusCode m, r.retryCount)
      | .err e => (.err (.ktErr e), r.retryCount)
      | .panic => (.panic, r.retryCount)

/-- The triple `doREST` (kt.go) returns: status code, body bytes, error. -/
structure RESTResult where
  code : Nat
  body : List Nat
  error : Option CallError
deriving DecidableEq

/-- `doREST` (kt.go), as a function of the value sent and of the transport
observations (see `doRPC`). On success the body is read and, if the timer
had fired by then (`!t.Stop()`), the read error is replaced by `ErrTimeout`;
code and body are returned alongside the error either way. -/
def doREST (_val : List Nat) (o1 o2 : Outcome)
    (rtTimerFired bodyTimerFired readErr : Bool) (rc : Nat) :
    RESTResult × Nat :=
  let r := roundTrip o1 o2 rtTimerFired rc
  match r.resp with
  | none => (⟨0, [], some (r.error.getD .transportErr)⟩, r.retryCount)
  | some resp =>
    let e : Option CallError :=
      if bodyTimerFired then some (.ktErr ErrTimeout)
      else if readErr then some .transportErr
      else none
    (⟨resp.statusCode, resp.body, e⟩, r.retryCount)

theorem b64Index_b64Char : ∀ i : Nat, i < 64 → b64Index (b64Char i) = some i := by
  decide

theorem b64Char_gt42 : ∀ i : Nat, i < 64 → 42 < b64Char i := by
  decide

theorem b64Char_ne61 : ∀ i : Nat, i < 64 → b64Char i ≠ 61 := by
  decide

theorem b64encode_mem : ∀ l : List Nat, ∀ c ∈ b64encode l, 42 < c
  | [], c, hc => by simp [b64encode] at hc
  | [b0], c, hc => by
    simp only [b64encode, List.mem_cons, List.not_mem_nil, or_false] at hc
    rcases hc with h | h | h | h
    · exact h ▸ b64Char_gt42 _ (Nat.mod_lt _ (by norm_num))
    · exact h ▸ b64Char_gt42 _ (Nat.mod_lt _ (by norm_num))
    · omega
    · omega
  | [b0, b1], c, hc => by
    simp only [b64encode, List.mem_cons, List.not_mem_nil, or_false] at hc
    rcases hc with h | h | h | h
    · exact h ▸ b64Char_gt42 _ (Nat.mod_lt _ (by norm_num))
    · exact h ▸ b64Char_gt42 _ (Nat.mod_lt _ (by norm_num))
    · exact h ▸ b64Char_gt42 _ (Nat.mod_lt _ (by norm_num))
    · omega
  | b0 :: b1 :: b2 :: rest, c, hc => by
    simp only [b64encode, List.mem_cons] at hc
    rcases hc with h | h | h | h | h
    · exact h ▸ b64Char_gt42 _ (Nat.mod_lt _ (by norm_num))
    · exact h ▸ b64Char_gt42 _ (Nat.mod_lt _ (by norm_num))
    · exact h ▸ b64Char_gt42 _ (Nat.mod_lt _ (by norm_num))
    · exact h ▸ b64Char_gt42 _ (Nat.mod_lt _ (by norm_num))
    · exact b64encode_mem rest c h

theorem b64encode_length : ∀ l : List Nat,
    (b64encode l).length = EncodedLen l.length
  | [] => rfl
  | [_] => by simp [b64encode, EncodedLen]
  | [_, _] => by simp [b64encode, EncodedLen]
  | b0 :: b1 :: b2 :: rest => by
    simp only [b64encode, List.length_cons,
      b64encode_length rest, EncodedLen]
    omega

theorem b64_roundtrip : ∀ l : List Nat, (∀ b ∈ l, b < 256) →
    b64decode (b64encode l) = l
  | [], _ => rfl
  | [b0], h => by
    have hb0 : b0 < 256 := h b0 (by simp)
    have h1 : b0 * 65536 / 262144 % 64 < 64 := Nat.mod_lt _ (by norm_num)
    have h2 : b0 * 65536 / 4096 % 64 < 64 := Nat.mod_lt _ (by norm_num)
    simp only [b64encode, b64decode, b64Index_b64Char _ h1,
      b64Index_b64Char _ h2, if_true]
    simp only [List.cons.injEq, and_true]
    omega
  | [b0, b1], h => by
    have hb0 : b0 < 256 := h b0 (by simp)
    have hb1 : b1 < 256 := h b1 (by simp)
    have h1 : (b0 * 65536 + b1 * 256) / 262144 % 64 < 64 :=
      Nat.mod_lt _ (by norm_num)
    have h2 : (b0 * 65536 + b1 * 256) / 4096 % 64 < 64 :=
      Nat.mod_lt _ (by norm_num)
    have h3 : (b0 * 65536 + b1 * 256) / 64 % 64 < 64 :=
      Nat.mod_lt _ (by norm_num)
    simp only [b64encode, b64decode, b64Index_b64Char _ h1,
      b64Index_b64Char _ h2, b64Index_b64Char _ h3,
      if_neg (b64Char_ne61 _ h3), if_true]
    simp only [List.cons.injEq, and_true]
    omega
  | b0 :: b1 :: b2 :: rest, h => by
    have hb0 : b0 < 256 := h b0 (by simp)
    have hb1 : b1 < 256 := h b1 (by simp)
    have hb2 : b2 < 256 := h b2 (by simp)
    have ih := b64_roundtrip rest (fun b hb => h b (by simp [hb]))
    have h1 : (b0 * 65536 + b1 * 256 + b2) / 262144 % 64 < 64 :=
      Nat.mod_lt _ (by norm_num)
    have h2 : (b0 * 65536 + b1 * 256 + b2) / 4096 % 64 < 64 :=
      Nat.mod_lt _ (by norm_num)
    have h3 : (b0 * 65536 + b1 * 256 + b2) / 64 % 64 < 64 :=
      Nat.mod_lt _ (by norm_num)
    have h4 : (b0 * 65536 + b1 * 256 + b2) % 64 < 64 :=
      Nat.mod_lt _ (by norm_num)
    simp only [b64encode, b64decode, b64Index_b64Char _ h1,
      b64Index_b64Char _ h2, b64Index_b64Char _ h3, b64Index_b64Char _ h4,
      if_neg (b64Char_ne61 _ h3), if_neg (b64Char_ne61 _ h4), ih]
    simp only [List.cons.injEq, and_true]
    omega

theorem readBytesTSV_not_found (delim : Nat) (l : List Nat)
    (h : delim ∉ l) : readBytesTSV delim l = (l, [], false) := by
  induction l with
  | nil => rfl
  | cons b rest ih =>
    simp only [List.mem_cons, not_or] at h
    have hb : ¬b = delim := fun e => h.1 e.symm
    simp [readBytesTSV, hb, ih h.2]

theorem readBytesTSV_append (delim : Nat) (k rest : List Nat)
    (h : delim ∉ k) :
    readBytesTSV delim (k ++ delim :: rest) = (k ++ [delim], rest, true) := by
  induction k with
  | nil => simp [readBytesTSV]
  | cons b kt ih =>
    simp only [List.mem_cons, not_or] at h
    have hb : ¬b = delim := fun e => h.1 e.symm
    simp [readBytesTSV, hb, ih h.2]

theorem decodeLoop_nil_tab (f : decodefunc) (l : List Nat) (h : 9 ∉ l) :
    decodeLoop f l = [] := by
  rw [decodeLoop]
  simp [readBytesTSV_not_found 9 l h]

theorem decodeLoop_step (f : decodefunc) (k v rest : List Nat)
    (hk : 9 ∉ k) (hv : 10 ∉ v) :
    decodeLoop f (k ++ 9 :: (v ++ 10 :: rest)) =
      ⟨f k, f v⟩ :: decodeLoop f rest := by
  rw [decodeLoop]
  simp only [readBytesTSV_append 9 k _ hk, readBytesTSV_append 10 v _ hv]
  simp [List.dropLast_concat, List.getLastD_concat]

/-- Parsing back a tab/newline record stream: when each encoded key is
tab-free, each encoded value newline-free, the field decoder inverts the
field encoder on every field, and the trailing garbage contains no tab,
`decodeLoop` recovers exactly the original records. -/
theorem decodeLoop_records (g f : decodefunc) (G : List Nat) (hG : 9 ∉ G) :
    ∀ values : List KV,
      (∀ kv ∈ values, 9 ∉ f kv.key ∧ 10 ∉ f kv.value ∧
        g (f kv.key) = kv.key ∧ g (f kv.value) = kv.value) →
      decodeLoop g
        ((values.map fun kv => f kv.key ++ 9 :: (f kv.value ++ [10])).flatten
          ++ G) = values := by
  intro values
  induction values with
  | nil =>
    intro _
    simpa using decodeLoop_nil_tab g G hG
  | cons kv rest ih =>
    intro h
    obtain ⟨h9, h10, hgk, hgv⟩ := h kv (by simp)
    have hr := ih fun x hx => h x (by simp [hx])
    simp only [List.map_cons, List.flatten_cons, List.append_assoc,
      List.cons_append, List.singleton_append]
    rw [decodeLoop_step g _ _ _ h9 h10, hgk, hgv]
    simp [hr]

theorem tsvBufsize_cons (kv : KV) (rest : List KV) :
    tsvBufsize (kv :: rest) =
      EncodedLen kv.key.length + 1 + EncodedLen kv.value.length + 1 +
        tsvBufsize rest := by
  have go : ∀ (l : List KV) (a : Nat),
      l.foldl (fun acc x =>
        acc + EncodedLen x.key.length + 1 + EncodedLen x.value.length + 1) a =
      a + l.foldl (fun acc x =>
        acc + EncodedLen x.key.length + 1 + EncodedLen x.value.length + 1) 0 := by
    intro l
    induction l with
    | nil => intro a; simp
    | cons x xs ihx =>
      intro a
      simp only [List.foldl_cons]
      rw [ihx, ihx (0 + EncodedLen x.key.length + 1 + EncodedLen x.value.length + 1)]
      omega
  simp only [tsvBufsize, List.foldl_cons]
  rw [go rest]
  omega

theorem length_le_EncodedLen (n : Nat) : n ≤ EncodedLen n := by
  simp only [EncodedLen]
  omega

theorem tsvWritten_length_b64 (values : List KV) :
    (tsvWritten true values).length = tsvBufsize values := by
  induction values with
  | nil => simp [tsvWritten, tsvBufsize]
  | cons kv rest ih =>
    simp only [tsvWritten, List.map_cons, List.flatten_cons, if_true] at ih ⊢
    simp only [List.length_append, List.length_cons, List.length_nil, ih,
      tsvBufsize_cons, b64encode_length]
    omega

theorem tsvWritten_length_le (hb : Bool) (values : List KV) :
    (tsvWritten hb values).length ≤ tsvBufsize values := by
  cases hb with
  | true => exact (tsvWritten_length_b64 values).le
  | false =>
    induction values with
    | nil => simp [tsvWritten, tsvBufsize]
    | cons kv rest ih =>
      simp only [tsvWritten, List.map_cons, List.flatten_cons, if_false,
        Bool.false_eq_true] at ih ⊢
      simp only [List.length_append, List.length_cons, List.length_nil,
        tsvBufsize_cons]
      have h1 := length_le_EncodedLen kv.key.length
      have h2 := length_le_EncodedLen kv.value.length
      omega

theorem TSVEncode_b64 (values : List KV) (h : tsvHasBinary values = true) :
    TSVEncode values = (tsvWritten true values, .Base64Enc) := by
  simp [TSVEncode, h, tsvWritten_length_b64]

theorem TSVEncode_id (values : List KV) (h : tsvHasBinary values = false) :
    TSVEncode values =
      (tsvWritten false values ++
        List.replicate (tsvBufsize values - (tsvWritten false values).length) 0,
       .IdentityEnc) := by
  simp [TSVEncode, h]

theorem not_hasBinary_bounds (l : List Nat) (h : hasBinary l = false) :
    ∀ b ∈ l, 0x20 ≤ b ∧ b ≤ 0x7e := by
  intro b hb
  simp only [hasBinary, List.any_eq_false] at h
  have hb2 := h b hb
  simp only [Bool.or_eq_true, decide_eq_true_eq, not_or, not_lt] at hb2
  omega

theorem hasBinarySlice_eq (l : List Nat) : hasBinarySlice l = hasBinary l := rfl

theorem tsvHasBinary_false (values : List KV)
    (h : tsvHasBinary values = false) :
    ∀ kv ∈ values, hasBinary kv.key = false ∧ hasBinarySlice kv.value = false := by
  intro kv hkv
  simp only [tsvHasBinary, List.any_eq_false] at h
  have hx := h kv hkv
  simp only [Bool.or_eq_true, not_or, Bool.not_eq_true] at hx
  exact hx

theorem tsvWritten_pos (hb : Bool) (kv : KV) (rest : List KV) :
    0 < (tsvWritten hb (kv :: rest)).length := by
  simp [tsvWritten]

theorem printable_not_mem (l : List Nat) (h : hasBinary l = false)
    (c : Nat) (hc : c < 0x20) : c ∉ l := by
  intro hm
  have := not_hasBinary_bounds l h c hm
  omega

/-- Claim C1: decoding the buffer produced by `TSVEncode` with a
content-type whose final character matches the returned encoding marker
(`s` = 115 for `IdentityEnc`, `B` = 66 for `Base64Enc`) recovers exactly
the encoded record list — the same records, in order, with the same key
and value bytes — both for printable-ASCII lists (which get the identity
encoding) and for arbitrary byte lists (which get base64 whenever some
byte is non-printable). -/
theorem TSVEncode_DecodeValues_roundtrip (values : List KV) (ct : List Nat)
    (hbytes : ∀ kv ∈ values,
      (∀ b ∈ kv.key, b < 256) ∧ ∀ b ∈ kv.value, b < 256)
    (hct : ct.getLast? = some (match (TSVEncode values).2 with
      | .IdentityEnc => 115
      | .Base64Enc => 66)) :
    DecodeValues (TSVEncode values).1 ct = .ok values := by
  cases hb : tsvHasBinary values with
  | true =>
    rw [TSVEncode_b64 values hb] at hct ⊢
    obtain ⟨kv0, rest0, rfl⟩ : ∃ kv0 rest0, values = kv0 :: rest0 := by
      cases values with
      | nil => simp [tsvHasBinary] at hb
      | cons a l => exact ⟨a, l, rfl⟩
    have hlen : ¬((tsvWritten true (kv0 :: rest0)).length = 0) := by
      have := tsvWritten_pos true kv0 rest0
      omega
    simp only [DecodeValues, if_neg hlen, hct]
    have hdec := decodeLoop_records base64Decode b64encode []
      (by simp) (kv0 :: rest0) ?_
    · simp only [List.append_nil] at hdec
      simp only [tsvWritten, if_true, hdec]
    · intro kv hkv
      obtain ⟨hk, hv⟩ := hbytes kv hkv
      refine ⟨?_, ?_, b64_roundtrip _ hk, b64_roundtrip _ hv⟩
      · intro hm
        have := b64encode_mem kv.key 9 hm
        omega
      · intro hm
        have := b64encode_mem kv.value 10 hm
        omega
  | false =>
    rw [TSVEncode_id values hb] at hct ⊢
    cases values with
    | nil =>
      simp [DecodeValues, tsvWritten, tsvBufsize]
    | cons kv0 rest0 =>
      have hlen : ¬((tsvWritten false (kv0 :: rest0) ++
          List.replicate (tsvBufsize (kv0 :: rest0) -
            (tsvWritten false (kv0 :: rest0)).length) 0).length = 0) := by
        have := tsvWritten_pos false kv0 rest0
        simp only [List.length_append]
        omega
      simp only [DecodeValues, if_neg hlen, hct]
      have hdec := decodeLoop_records identityDecode (fun b => b)
        (List.replicate (tsvBufsize (kv0 :: rest0) -
          (tsvWritten false (kv0 :: rest0)).length) 0)
        (by
          intro hm
          have := List.eq_of_mem_replicate hm
          omega)
        (kv0 :: rest0) ?_
      · simp only [tsvWritten, Bool.false_eq_true, if_false] at hdec ⊢
        simp only [hdec]
        norm_num
      · intro kv hkv
        obtain ⟨hkb, hvb⟩ := tsvHasBinary_false _ hb kv hkv
        rw [hasBinarySlice_eq] at hvb
        exact ⟨printable_not_mem _ hkb 9 (by norm_num),
          printable_not_mem _ hvb 10 (by norm_num), rfl, rfl⟩

/-- Witness for C1: a concrete binary list round-trips through the base64
encoding with a content-type ending in `B`, and a concrete printable list
round-trips through the identity encoding with one ending in `s`. -/
theorem TSVEncode_DecodeValues_roundtrip_witness :
    DecodeValues (TSVEncode [⟨[97], [0, 255]⟩]).1 [66] =
        .ok [⟨[97], [0, 255]⟩] ∧
      DecodeValues (TSVEncode [⟨[107, 101, 121], [118, 97, 108]⟩]).1
        (strBytes "text/tab-separated-values") =
        .ok [⟨[107, 101, 121], [118, 97, 108]⟩] :=
  ⟨TSVEncode_DecodeValues_roundtrip _ _ (by decide) (by decide),
   TSVEncode_DecodeValues_roundtrip _ _ (by decide) (by decide)⟩

theorem TSVEncode_marker_b64 (values : List KV) :
    (TSVEncode values).2 = .Base64Enc ↔ tsvHasBinary values = true := by
  cases hb : tsvHasBinary values <;> simp [TSVEncode, hb]

theorem TSVEncode_marker_id (values : List KV) :
    (TSVEncode values).2 = .IdentityEnc ↔ tsvHasBinary values = false := by
  cases hb : tsvHasBinary values <;> simp [TSVEncode, hb]

theorem tsvHasBinary_iff (values : List KV) :
    tsvHasBinary values = true ↔
      ∃ kv ∈ values, (∃ b ∈ kv.key, b < 0x20 ∨ 0x7e < b) ∨
        ∃ b ∈ kv.value, b < 0x20 ∨ 0x7e < b := by
  simp [tsvHasBinary, hasBinary, hasBinarySlice, List.any_eq_true]

theorem tsvBufsize_sum (values : List KV) :
    tsvBufsize values =
      (values.map fun kv =>
        EncodedLen kv.key.length + 1 + EncodedLen kv.value.length + 1).sum := by
  induction values with
  | nil => rfl
  | cons kv rest ih => simp [tsvBufsize_cons, ih]

/-- Claim C2: `TSVEncode` returns the Base64 marker exactly when at least
one byte of some key or value in the list lies outside printable ASCII
0x20..0x7e, and then base64-encodes every key and every value of the
buffer; otherwise it returns the Identity marker and copies every field
verbatim (the identity buffer is followed by the zero tail of the
base64-sized allocation). Each buffer uses a single field encoding
throughout. -/
theorem TSVEncode_encoding_selection (values : List KV) :
    ((TSVEncode values).2 = .Base64Enc ↔
      ∃ kv ∈ values, (∃ b ∈ kv.key, b < 0x20 ∨ 0x7e < b) ∨
        ∃ b ∈ kv.value, b < 0x20 ∨ 0x7e < b) ∧
    ((TSVEncode values).2 = .Base64Enc →
      (TSVEncode values).1 =
        (values.map fun kv =>
          b64encode kv.key ++ 9 :: (b64encode kv.value ++ [10])).flatten) ∧
    ((TSVEncode values).2 = .IdentityEnc →
      (TSVEncode values).1 =
        (values.map fun kv => kv.key ++ 9 :: (kv.value ++ [10])).flatten ++
          List.replicate (tsvBufsize values -
            (values.map fun kv =>
              kv.key ++ 9 :: (kv.value ++ [10])).flatten.length) 0) := by
  refine ⟨(TSVEncode_marker_b64 values).trans (tsvHasBinary_iff values),
    ?_, ?_⟩
  · intro h
    have hb := (TSVEncode_marker_b64 values).mp h
    rw [TSVEncode_b64 values hb]
    simp [tsvWritten]
  · intro h
    have hb := (TSVEncode_marker_id values).mp h
    rw [TSVEncode_id values hb]
    simp [tsvWritten]

/-- Witness for C2: a single non-printable byte in one value forces the
Base64 marker and base64 encoding of both fields of a concrete list, while
an all-printable list gets the Identity marker. -/
theorem TSVEncode_encoding_selection_witness :
    (TSVEncode [⟨[97], [0]⟩]).2 = .Base64Enc ∧
      (TSVEncode [⟨[97], [0]⟩]).1 =
        b64encode [97] ++ 9 :: (b64encode [0] ++ [10]) ∧
      (TSVEncode [⟨[97], [98]⟩]).2 = .IdentityEnc := by
  have h := TSVEncode_encoding_selection [⟨[97], [0]⟩]
  refine ⟨h.1.mpr (by decide), ?_, by decide⟩
  have hb := h.2.1 (h.1.mpr (by decide))
  simpa using hb

/-- Counterexample to claim C3: the list `[("a", "")]` is all printable, so
the identity encoding is chosen and its record data is `1 + 1 + 0 + 1 = 3`
bytes, yet the returned buffer has the base64-derived size 6 — the claim's
identity-length formula does not hold and the buffer carries bytes beyond
the written records. -/
theorem TSVEncode_length_counterexample :
    (TSVEncode [⟨[97], []⟩]).2 = .IdentityEnc ∧
      (TSVEncode [⟨[97], []⟩]).1.length = 6 ∧
      ¬((TSVEncode [⟨[97], []⟩]).1.length = 1 + 1 + 0 + 1) := by decide

/-- Claim C3, amended: the buffer returned by `TSVEncode` always has length
`Σ (EncodedLen key + 1 + EncodedLen value + 1)` — the base64-derived size —
regardless of the chosen encoding. With the Base64 marker the buffer is
exactly the written records; with the Identity marker the written records
(`Σ (len key + 1 + len value + 1)` bytes) form a prefix and the remainder
of the buffer is zero padding. -/
theorem TSVEncode_length (values : List KV) :
    (TSVEncode values).1.length =
      (values.map fun kv =>
        EncodedLen kv.key.length + 1 + EncodedLen kv.value.length + 1).sum ∧
    ((TSVEncode values).2 = .Base64Enc →
      (TSVEncode values).1 = tsvWritten true values) ∧
    ((TSVEncode values).2 = .IdentityEnc →
      (TSVEncode values).1 = tsvWritten false values ++
        List.replicate
          (tsvBufsize values - (tsvWritten false values).length) 0) := by
  refine ⟨?_, ?_, ?_⟩
  · rw [← tsvBufsize_sum]
    cases hb : tsvHasBinary values with
    | true =>
      rw [TSVEncode_b64 values hb]
      exact tsvWritten_length_b64 values
    | false =>
      rw [TSVEncode_id values hb]
      have := tsvWritten_length_le false values
      simp only [List.length_append, List.length_replicate]
      omega
  · intro h
    rw [TSVEncode_b64 values ((TSVEncode_marker_b64 values).mp h)]
  · intro h
    rw [TSVEncode_id values ((TSVEncode_marker_id values).mp h)]

/-- Witness for C3 (amended): on `[("a", "")]` the buffer length is the
base64-derived 6 and the buffer is the 3 written identity bytes followed
by 3 zero bytes. -/
theorem TSVEncode_length_witness :
    (TSVEncode [⟨[97], []⟩]).1.length = 6 ∧
      (TSVEncode [⟨[97], []⟩]).1 = [97, 9, 10] ++ List.replicate 3 0 := by
  have h := TSVEncode_length [⟨[97], []⟩]
  refine ⟨by simpa using h.1, ?_⟩
  have hb := h.2.2 (by decide)
  simpa using hb

/-- Claim C4: for every non-empty buffer, `DecodeValues` selects base64
field decoding when the content-type's final character is `B` (66),
percent-escape decoding when it is `U` (85), identity decoding when it is
`s` (115), and fails with an `Error` naming the unknown content-type for
any other final character; an empty buffer returns an empty list and no
error. -/
theorem DecodeValues_dispatch (buf ct : List Nat) :
    DecodeValues [] ct = .ok [] ∧
    (buf ≠ [] → ∀ c, ct.getLast? = some c →
      (c = 66 → DecodeValues buf ct = .ok (decodeLoop base64Decode buf)) ∧
      (c = 85 → DecodeValues buf ct = .ok (decodeLoop urlDecode buf)) ∧
      (c = 115 → DecodeValues buf ct = .ok (decodeLoop identityDecode buf)) ∧
      (c ≠ 66 → c ≠ 85 → c ≠ 115 →
        DecodeValues buf ct =
          .err ⟨strBytes "responded with unknown Content-Type: " ++ ct,
                0⟩)) := by
  constructor
  · simp [DecodeValues]
  · intro hbuf c hc
    have hlen : ¬(buf.length = 0) := by simpa using hbuf
    refine ⟨fun h1 => ?_, fun h1 => ?_, fun h1 => ?_,
      fun h1 h2 h3 => ?_⟩
    · simp [DecodeValues, hbuf, hc, h1]
    · simp [DecodeValues, hbuf, hc, h1]
    · simp [DecodeValues, hbuf, hc, h1]
    · simp [DecodeValues, hbuf, hc, h1, h2, h3]

/-- Witness for C4: concrete dispatches of a two-field body on content
types ending in `B`, `U`, `s` and `x`, and of the empty buffer. -/
theorem DecodeValues_dispatch_witness :
    DecodeValues [] [120] = .ok [] ∧
    DecodeValues [97, 9, 98, 10] [66] =
      .ok (decodeLoop base64Decode [97, 9, 98, 10]) ∧
    DecodeValues [97, 9, 98, 10] [85] =
      .ok (decodeLoop urlDecode [97, 9, 98, 10]) ∧
    DecodeValues [97, 9, 98, 10] [115] =
      .ok (decodeLoop identityDecode [97, 9, 98, 10]) ∧
    DecodeValues [97, 9, 98, 10] [120] =
      .err ⟨strBytes "responded with unknown Content-Type: " ++ [120], 0⟩ := by
  refine ⟨(DecodeValues_dispatch [] [120]).1, ?_, ?_, ?_, ?_⟩
  · exact ((DecodeValues_dispatch [97, 9, 98, 10] [66]).2 (by decide) 66
      (by decide)).1 rfl
  · exact ((DecodeValues_dispatch [97, 9, 98, 10] [85]).2 (by decide) 85
      (by decide)).2.1 rfl
  · exact ((DecodeValues_dispatch [97, 9, 98, 10] [115]).2 (by decide) 115
      (by decide)).2.2.1 rfl
  · exact ((DecodeValues_dispatch [97, 9, 98, 10] [120]).2 (by decide) 120
      (by decide)).2.2.2 (by decide) (by decide) (by decide)

/-- Claim C9: `DecodeValues` reads `contenttype[len(contenttype)-1]`
without checking that the string is non-empty: a non-empty buffer with an
empty content-type panics (it does not return a `DecodeError`); a
non-empty content-type never panics; and the empty-buffer early return
makes an empty buffer safe with any content-type, the empty one included. -/
theorem DecodeValues_empty_contenttype (buf ct : List Nat) :
    (buf ≠ [] → DecodeValues buf [] = .panic) ∧
    (ct ≠ [] → DecodeValues buf ct ≠ .panic) ∧
    DecodeValues [] ct = .ok [] := by
  refine ⟨fun h => ?_, fun hct => ?_, by simp [DecodeValues]⟩
  · simp [DecodeValues, h]
  · have hsome : ct.getLast?.isSome := by
      cases ct with
      | nil => exact absurd rfl hct
      | cons a l => simp [List.getLast?_isSome]
    obtain ⟨c, hc⟩ := Option.isSome_iff_exists.mp hsome
    by_cases hl : buf.length = 0
    · simp [DecodeValues, hl]
    · simp only [DecodeValues, if_neg hl, hc]
      split_ifs <;> simp

/-- Witness for C9: a one-byte buffer with the empty content-type panics,
while the same buffer with content-type `"s"` does not, and the empty
buffer with the empty content-type returns an empty list. -/
theorem DecodeValues_empty_contenttype_witness :
    DecodeValues [97] [] = .panic ∧
      DecodeValues [97] [115] ≠ .panic ∧
      DecodeValues [] [] = .ok [] :=
  ⟨(DecodeValues_empty_contenttype [97] []).1 (by decide),
   (DecodeValues_empty_contenttype [97] [115]).2.1 (by decide),
   (DecodeValues_empty_contenttype [] []).2.2⟩

theorem bulkFill_none_iff : ∀ (m : List KV) (st : GoByteMap),
    bulkFill m st = none ↔ ∃ kv ∈ m, kv.key = []
  | [], st => by simp [bulkFill]
  | kv :: rest, st => by
    cases hk : kv.key with
    | nil =>
      constructor
      · intro _
        exact ⟨kv, List.mem_cons_self kv rest, hk⟩
      · intro _
        rw [bulkFill, hk]
    | cons c ktail =>
      by_cases hc : c = 95
      · simp [bulkFill, hk, hc, bulkFill_none_iff rest]
      · simp [bulkFill, hk, hc, bulkFill_none_iff rest]

theorem matchCollect_none_iff : ∀ m : List KV,
    matchCollect m = none ↔ ∃ kv ∈ m, kv.key = []
  | [] => by simp [matchCollect]
  | kv :: rest => by
    cases hk : kv.key with
    | nil => simp [matchCollect, hk]
    | cons c ktail =>
      have hrest := matchCollect_none_iff rest
      cases hmc : matchCollect rest with
      | none =>
        rw [hmc] at hrest
        simp [matchCollect, hk, hmc, hrest.mp rfl]
      | some res =>
        rw [hmc] at hrest
        have hno : ∀ x ∈ rest, ¬x.key = [] := by
          intro x hx he
          exact Option.noConfusion (hrest.mpr ⟨x, hx, he⟩)
        simp [matchCollect, hk, hmc]
        exact hno

/-- Claim C10: `doGetBulkBytes` and `MatchPrefix` read `kv.Key[0]` of each
decoded record without an emptiness check: a response record with an empty
key makes both panic even on status 200, and with every record key
non-empty neither panics. -/
theorem bulk_match_empty_key_panic (keys : List (List Nat)) (m : List KV) :
    ((∃ kv ∈ m, kv.key = []) →
      doGetBulkBytes keys 200 m = .panic ∧
        MatchPrefixModel 200 m = .panic) ∧
    ((∀ kv ∈ m, kv.key ≠ []) →
      doGetBulkBytes keys 200 m ≠ .panic ∧
        MatchPrefixModel 200 m ≠ .panic) := by
  constructor
  · intro h
    have h1 := (bulkFill_none_iff m (bulkSeed keys)).mpr h
    have h2 := (matchCollect_none_iff m).mpr h
    exact ⟨by simp [doGetBulkBytes, h1], by simp [MatchPrefixModel, h2]⟩
  · intro h
    have hne : ¬∃ kv ∈ m, kv.key = [] := by
      push_neg
      exact h
    constructor
    · have h1 : bulkFill m (bulkSeed keys) ≠ none := by
        rw [Ne, bulkFill_none_iff]
        exact hne
      obtain ⟨st, hst⟩ := Option.ne_none_iff_exists'.mp h1
      simp [doGetBulkBytes, hst]
    · have h2 : matchCollect m ≠ none := by
        rw [Ne, matchCollect_none_iff]
        exact hne
      obtain ⟨res, hres⟩ := Option.ne_none_iff_exists'.mp h2
      by_cases hz : res.length = 0 <;> simp [MatchPrefixModel, hres, hz]

/-- Witness for C10: the body `"\tv\n"` (tab first) decodes to a record
with an empty key, and that record makes both bulk get and match panic,
while a record with a non-empty key panics in neither. -/
theorem bulk_match_empty_key_panic_witness :
    decodeLoop identityDecode [9, 118, 10] = [⟨[], [118]⟩] ∧
      doGetBulkBytes [] 200 [⟨[], [118]⟩] = .panic ∧
      MatchPrefixModel 200 [⟨[], [118]⟩] = .panic ∧
      MatchPrefixModel 200 [⟨[97], [118]⟩] ≠ .panic := by
  refine ⟨?_, ?_, ?_, ?_⟩
  · have h := decodeLoop_step identityDecode [] [118] [] (by simp) (by simp)
    simpa [decodeLoop_nil_tab identityDecode [] (by simp)] using h
  · exact ((bulk_match_empty_key_panic [] [⟨[], [118]⟩]).1
      ⟨⟨[], [118]⟩, by simp⟩).1
  · exact ((bulk_match_empty_key_panic [] [⟨[], [118]⟩]).1
      ⟨⟨[], [118]⟩, by simp⟩).2
  · exact ((bulk_match_empty_key_panic [] [⟨[97], [118]⟩]).2
      (by decide)).2

/-- The value of the last record of `m` whose key is `_` (95) followed by
`k`, if any — the record whose assignment survives the response loop. -/
def lastEcho : List KV → List Nat → Option (List Nat)
  | [], _ => none
  | kv :: rest, k =>
    match lastEcho rest k with
    | some v => some v
    | none => if kv.key = 95 :: k then some kv.value else none

theorem bulkFill_some_spec : ∀ (m : List KV) (st st' : GoByteMap),
    bulkFill m st = some st' → ∀ k, st' k =
      match lastEcho m k with
      | some v => some (some v)
      | none => st k
  | [], st, st', h, k => by
    simp only [bulkFill, Option.some.injEq] at h
    subst h
    simp [lastEcho]
  | kv :: rest, st, st', h, k => by
    cases hk : kv.key with
    | nil => simp [bulkFill, hk] at h
    | cons c ktail =>
      simp only [bulkFill, hk] at h
      by_cases hc : c = 95
      · rw [if_pos hc] at h
        have ih := bulkFill_some_spec rest _ st' h k
        subst hc
        rw [ih, lastEcho, hk]
        cases hle : lastEcho rest k with
        | some v => simp
        | none =>
          simp only [mapUpdate]
          by_cases hkk : ktail = k
          · subst hkk
            simp
          · have h1 : ¬(k = ktail) := fun e => hkk e.symm
            have h2 : ¬((95 : Nat) :: ktail = 95 :: k) := by simp [hkk]
            simp [h1, h2]
      · rw [if_neg hc] at h
        have ih := bulkFill_some_spec rest _ st' h k
        rw [ih, lastEcho, hk]
        cases hle : lastEcho rest k with
        | some v => simp
        | none =>
          have h2 : ¬(c :: ktail = 95 :: k) := by simp [hc]
          simp [h2]

/-- Counterexample to claim C5: with an empty requested key set and a
status-200 response that echoes `_x`, the resulting map contains the key
`x` bound to the echoed value, although `x` was never requested — the map
assignment `keys[kv.Key[1:]] = kv.Value` inserts unrequested keys. -/
theorem doGetBulkBytes_counterexample :
    (doGetBulkBytes [] 200 [⟨[95, 120], [48]⟩]).lookup [120] = some [48] ∧
      [120] ∉ ([] : List (List Nat)) := by
  exact ⟨rfl, by simp⟩

/-- Claim C5, amended: on a status-200 response whose decoded records all
have non-empty keys, the bulk-get call succeeds and the resulting map binds
each key `k` to the value of the last response record keyed `_k` — whether
or not `k` was requested — and binds nothing else: every requested key not
echoed is deleted rather than left with the `nil` sentinel. -/
theorem doGetBulkBytes_spec (keys : List (List Nat)) (m : List KV)
    (h : ∀ kv ∈ m, kv.key ≠ []) :
    (doGetBulkBytes keys 200 m ≠ .panic) ∧
    (∀ e, doGetBulkBytes keys 200 m ≠ .err e) ∧
    (∀ k, (doGetBulkBytes keys 200 m).lookup k = lastEcho m k) := by
  have hne : ¬∃ kv ∈ m, kv.key = [] := by
    push_neg
    exact h
  have h1 : bulkFill m (bulkSeed keys) ≠ none := by
    rw [Ne, bulkFill_none_iff]
    exact hne
  obtain ⟨st, hst⟩ := Option.ne_none_iff_exists'.mp h1
  have hspec := bulkFill_some_spec m (bulkSeed keys) st hst
  refine ⟨by simp [doGetBulkBytes, hst], by simp [doGetBulkBytes, hst], ?_⟩
  intro k
  simp only [doGetBulkBytes, if_neg (by norm_num : ¬(200 ≠ 200)), hst,
    BulkResult.lookup]
  rw [hspec k]
  cases hle : lastEcho m k with
  | some v => simp
  | none =>
    simp only [bulkSeed]
    by_cases hk : k ∈ keys <;> simp [hk]

/-- Witness for C5 (amended): requesting `a` and `b` against a response
echoing only `_a` yields a map binding `a` to the echoed value with `b`
absent, and the call neither panics nor errors. -/
theorem doGetBulkBytes_spec_witness :
    (doGetBulkBytes [[97], [98]] 200 [⟨[95, 97], [49]⟩]).lookup [97] =
        some [49] ∧
      (doGetBulkBytes [[97], [98]] 200 [⟨[95, 97], [49]⟩]).lookup [98] =
        none ∧
      doGetBulkBytes [[97], [98]] 200 [⟨[95, 97], [49]⟩] ≠ .panic := by
  have hs := doGetBulkBytes_spec [[97], [98]] [⟨[95, 97], [49]⟩]
    (by decide)
  refine ⟨?_, ?_, hs.1⟩
  · rw [hs.2.2 [97]]
    rfl
  · rw [hs.2.2 [98]]
    rfl

/-- Counterexample to claim C6: the decoded list `[(KV "" "a")]` contains
no record with a `_`-prefixed key, yet `MatchPrefix` on status 200 panics
reading `kv.Key[0]` instead of returning the `ErrSuccess` sentinel. -/
theorem MatchPrefixModel_counterexample :
    (∀ kv ∈ [(⟨[], [97]⟩ : KV)], kv.key.head? ≠ some 95) ∧
      MatchPrefixModel 200 [⟨[], [97]⟩] = .panic ∧
      MatchPrefixModel 200 [⟨[], [97]⟩] ≠ .err ErrSuccess := by
  refine ⟨by decide, ?_, ?_⟩ <;> decide

theorem matchCollect_no_marked (m : List KV)
    (hne : ∀ kv ∈ m, kv.key ≠ [])
    (hnp : ∀ kv ∈ m, kv.key.head? ≠ some 95) :
    matchCollect m = some [] := by
  induction m with
  | nil => rfl
  | cons kv rest ih =>
    have hr := ih (fun x hx => hne x (List.mem_cons_of_mem kv hx))
      (fun x hx => hnp x (List.mem_cons_of_mem kv hx))
    cases hk : kv.key with
    | nil => exact absurd hk (hne kv (List.mem_cons_self kv rest))
    | cons c ktail =>
      have hc : ¬(c = 95) := by
        have := hnp kv (List.mem_cons_self kv rest)
        rw [hk] at this
        simpa using this
      simp [matchCollect, hk, hr, hc]

/-- Claim C6, amended: when the RPC returns status 200 and the decoded
record list contains no record with a `_`-prefixed key — and, as the
empty-key panic forces, every record key is non-empty — `MatchPrefix`
returns a nil result with the distinguished `ErrSuccess` sentinel
(message `success`), not a not-found or generic protocol error. -/
theorem MatchPrefixModel_empty_sentinel (m : List KV)
    (hne : ∀ kv ∈ m, kv.key ≠ [])
    (hnp : ∀ kv ∈ m, kv.key.head? ≠ some 95) :
    MatchPrefixModel 200 m = .err ErrSuccess := by
  simp [MatchPrefixModel, matchCollect_no_marked m hne hnp]

/-- Witness for C6 (amended): a status-200 response decoding to one record
with the unmarked key `a` yields exactly the `ErrSuccess` sentinel. -/
theorem MatchPrefixModel_empty_sentinel_witness :
    MatchPrefixModel 200 [⟨[97], [98]⟩] = .err ErrSuccess :=
  MatchPrefixModel_empty_sentinel [⟨[97], [98]⟩] (by decide) (by decide)

/-- Claim C7: `roundTrip` makes at most two transport attempts per call;
when the first attempt succeeds the retry counter is unchanged by the
call, and when the first attempt fails and the single retry succeeds the
counter observed through `RetryCount` increases by exactly one (the
`uint64` increment `(rc+1) mod 2^64`, which is `rc+1` whenever the
counter does not wrap). -/
theorem roundTrip_retry (o1 o2 : Outcome) (tf : Bool) (rc : Nat) :
    (roundTrip o1 o2 tf rc).attempts ≤ 2 ∧
    (∀ r, o1 = .ok r →
      (roundTrip o1 o2 tf rc).attempts = 1 ∧
      (roundTrip o1 o2 tf rc).retryCount = rc) ∧
    (∀ r, o1 = .err → o2 = .ok r →
      (roundTrip o1 o2 tf rc).retryCount = (rc + 1) % 2 ^ 64 ∧
      (rc + 1 < 2 ^ 64 →
        (roundTrip o1 o2 tf rc).retryCount = rc + 1)) := by
  cases o1 with
  | ok r0 => simp [roundTrip]
  | err =>
    cases o2 with
    | ok r0 =>
      refine ⟨by simp [roundTrip], by simp, ?_⟩
      intro r _ _
      exact ⟨rfl, fun h => Nat.mod_eq_of_lt h⟩
    | err =>
      refine ⟨by simp [roundTrip], by simp, ?_⟩
      intro r _ h2
      exact absurd h2 (by simp)

/-- Witness for C7: from counter 5, a failed first attempt with a
successful retry yields counter 6; a successful first attempt leaves it
at 5; at most two attempts are made. -/
theorem roundTrip_retry_witness :
    (roundTrip .err (.ok ⟨200, [], []⟩) false 5).retryCount = 6 ∧
      (roundTrip (.ok ⟨200, [], []⟩) .err false 5).retryCount = 5 ∧
      (roundTrip .err (.ok ⟨200, [], []⟩) false 5).attempts ≤ 2 := by
  have h := roundTrip_retry .err (.ok ⟨200, [], []⟩) false 5
  exact ⟨(h.2.2 ⟨200, [], []⟩ rfl rfl).2 (by norm_num),
    ((roundTrip_retry (.ok ⟨200, [], []⟩) .err false 5).2.1
      ⟨200, [], []⟩ rfl).2,
    h.1⟩

/-- Claim C8: for both the RPC and the REST dispatcher, if the deadline
timer had already fired when the (possibly retried) transport attempt's
error surfaced, or had fired by the time the response body was fully
read, the call's error is the `ErrTimeout` sentinel — not the underlying
transport error and not a success carrying the received bytes. -/
theorem doRPC_doREST_timeout (values : List KV) (val : List Nat)
    (o1 o2 : Outcome) (tf btf rerr : Bool) (rc : Nat) :
    (o1 = .err → o2 = .err → tf = true →
      (doRPC values o1 o2 tf btf rerr rc).1 = .err (.ktErr ErrTimeout) ∧
      (doREST val o1 o2 tf btf rerr rc).1.error =
        some (.ktErr ErrTimeout)) ∧
    (∀ resp, (o1 = .ok resp ∨ (o1 = .err ∧ o2 = .ok resp)) → btf = true →
      (doRPC values o1 o2 tf btf rerr rc).1 = .err (.ktErr ErrTimeout) ∧
      (doREST val o1 o2 tf btf rerr rc).1.error =
        some (.ktErr ErrTimeout)) := by
  constructor
  · rintro rfl rfl rfl
    exact ⟨rfl, rfl⟩
  · rintro resp (rfl | ⟨rfl, rfl⟩) rfl
    · exact ⟨rfl, rfl⟩
    · exact ⟨rfl, rfl⟩

/-- Witness for C8: a doubly failed RPC attempt with the timer fired
reports `ErrTimeout`, and a successful REST attempt whose timer fired
during the body read reports `ErrTimeout` despite the received bytes. -/
theorem doRPC_doREST_timeout_witness :
    (doRPC [] .err .err true false false 0).1 = .err (.ktErr ErrTimeout) ∧
      (doREST [] (.ok ⟨200, [97], [115]⟩) .err false true false 0).1.error =
        some (.ktErr ErrTimeout) := by
  have h1 := (doRPC_doREST_timeout [] [] .err .err true false false 0).1
    rfl rfl rfl
  have h2 := (doRPC_doREST_timeout [] [] (.ok ⟨200, [97], [115]⟩) .err
    false true false 0).2 ⟨200, [97], [115]⟩ (Or.inl rfl) rfl
  exact ⟨h1.1, h2.2⟩

end KT
